import Mathlib

/-!
# Verification of the enzyme mount-wrapper query/matching engine

A shallow embedding, in Lean 4, of the query-and-assertion layer over a
rendered component tree:

* `contains/index.js` — the structural comparator (`nodeEqual`, `nodeMatches`,
  `childrenToSimplifiedArray`, `internalNodeCompare`);
* `contains/RSTTraversal.js` — `treeForEach` / `treeFilter`;
* `ReactMountWrapper.js` — the stateful query wrapper (`single`, accessors,
  root-only mutators, `filter`/`not`/`wrap`, the containment checks).

JavaScript values are modelled by inductive types.  Reference equality
(`===`) on objects is collapsed to structural equality of the model values;
`lodash/isEqual` (deep equality, used by the comparator as a fallback for
object-typed props) is likewise structural equality, with object fields kept
in a canonical order.  JavaScript numbers are modelled as `Int` (no `NaN` /
floating point in the embedded data domain).  Machine effects (renderer calls,
`setState`) are returned as explicit `Effect` descriptions, and thrown
exceptions as `Except` errors carrying the spec's error-kind taxonomy plus the
literal message the source builds.
-/

namespace Enzyme

/-! ## Prop values

The value domain of a node's `props` mapping.  `func` models a function
reference by an opaque identity (two props are `===`-equal iff the ids are);
`obj`/`arr` model plain objects and arrays, compared deeply by the comparator
(`lodash/isEqual`), which structural equality captures with fields in
canonical order.  `undefP`/`nullP` model explicit `undefined`/`null` values.
-/

mutual
inductive PVal where
  | str (s : String)
  | int (n : Int)
  | bool (b : Bool)
  | nullP
  | undefP
  | func (id : Nat)
  | obj (fields : PFields)
  | arr (elems : PList)
  deriving DecidableEq
inductive PFields where
  | nil
  | cons (k : String) (v : PVal) (tl : PFields)
  deriving DecidableEq
inductive PList where
  | nil
  | cons (hd : PVal) (tl : PList)
  deriving DecidableEq
end

/-- A node's `type`: a host tag string, or a composite component reference
(identified by `id`; `displayName`/`fnName` model the function's
`displayName` and resolvable name, `none` standing for absent-or-falsy). -/
inductive NType where
  | host (tag : String)
  | comp (id : Nat) (displayName : Option String) (fnName : Option String)
  deriving DecidableEq

/-! ## Node values

`NVal` is the domain the structural comparator ranges over: the `null`,
`false` and `undefined` entries that can occur among children, textual
leaves (string or number), and element nodes carrying a type, a props
mapping (the non-`children` keys) and the `children` prop.  The `children`
prop, when present (`COpt.someC`), is either a single child or an array of
children, exactly as a React element's `props.children`. -/

mutual
inductive NVal where
  | nullV
  | falseV
  | undefV
  | text (s : String)
  | num (n : Int)
  | elem (ty : NType) (props : List (String × PVal)) (children : COpt)
  deriving DecidableEq
inductive COpt where
  | noneC
  | someC (c : CVal)
  deriving DecidableEq
inductive CVal where
  | one (v : NVal)
  | many (vs : NList)
  deriving DecidableEq
inductive NList where
  | nil
  | cons (hd : NVal) (tl : NList)
  deriving DecidableEq
end

def NList.toList : NList → List NVal
  | .nil => []
  | .cons h t => h :: t.toList

def NList.ofList : List NVal → NList
  | [] => .nil
  | h :: t => .cons h (NList.ofList t)

/-! ## Sizes (recursion depth measure for the comparator's fuel) -/

mutual
def sizeN : NVal → Nat
  | .nullV | .falseV | .undefV => 1
  | .text _ => 1
  | .num _ => 1
  | .elem _ _ c => 1 + sizeCO c
def sizeCO : COpt → Nat
  | .noneC => 0
  | .someC c => sizeC c
def sizeC : CVal → Nat
  | .one v => sizeN v
  | .many l => sizeL l
def sizeL : NList → Nat
  | .nil => 0
  | .cons h t => sizeN h + sizeL t
end

/-- Sum of the sizes of a list of nodes. -/
def sumSize (l : List NVal) : Nat := (l.map sizeN).sum

/-! ## Basic JavaScript-semantics helpers used by `internalNodeCompare` -/

/-- `isTextualNode`: `typeof node === 'string' || typeof node === 'number'`. -/
def isTextualNode : NVal → Bool
  | .text _ => true
  | .num _ => true
  | _ => false

/-- JavaScript falsiness of a node value (`!a`): `null`, `false`,
`undefined`, the empty string and the number `0` are falsy. -/
def jsFalsy : NVal → Bool
  | .nullV | .falseV | .undefV => true
  | .text s => s = ""
  | .num n => n = 0
  | .elem _ _ _ => false

/-- `a.type`: the `type` property of an element, `undefined` (`none`) on a
textual leaf.  (`null`/`false`/`undefined` comparands are rejected as falsy
before the comparator ever reads `type`.) -/
def jsTypeOf : NVal → Option NType
  | .elem t _ _ => some t
  | _ => none

/-- First-match key lookup in a props mapping (`right[prop]`, `prop in right`). -/
def lookupP (l : List (String × PVal)) (k : String) : Option PVal :=
  (l.find? (fun kv => kv.1 == k)).map Prod.snd

def keysOf (l : List (String × PVal)) : List String := l.map Prod.fst

/-- `propsOfNode` (from `common/index.js`) restricted to the non-`children`
keys: `entries(node.props || {})` with `undefined`-valued props filtered out;
non-element values have no `props`, giving the empty mapping.  When the
comparator runs in loose mode it further strips props whose value
`== null` (`removeNullaryReducer`), so `isLoose` also drops `null` values. -/
def effectiveProps (isLoose : Bool) : NVal → List (String × PVal)
  | .elem _ ps _ =>
      ps.filter (fun kv =>
        !(kv.2 == PVal.undefP) && (!isLoose || !(kv.2 == PVal.nullP)))
  | _ => []

/-- The `children` prop as the comparator sees it: `propsOfNode` drops a
`children` key whose value is `undefined`, and loose mode additionally drops
one whose value is `null` (`removeNullaryReducer`); so `'children' in left`
is `isSomeC` of this. -/
def activeChildren (isLoose : Bool) : NVal → COpt
  | .elem _ _ c =>
      match c with
      | .someC (.one .undefV) => .noneC
      | .someC (.one .nullV) => if isLoose then .noneC else c
      | _ => c
  | _ => .noneC

def COpt.isSomeC : COpt → Bool
  | .noneC => false
  | .someC _ => true

/-! ## `childrenToArray` and `childrenToSimplifiedArray` -/

/-- The guard of `childrenToArray`'s `push`: `el === null || el === false ||
typeof el === 'undefined'` means the entry is dropped. -/
def isNullishFalse : NVal → Bool
  | .nullV | .falseV | .undefV => true
  | _ => false

/-- `childrenToArray(children)`: an array is filtered element-wise, a single
non-array child becomes a singleton (or nothing, if nullish/false), and the
absent value yields the empty array. -/
def childrenToArray : COpt → List NVal
  | .noneC => []
  | .someC (.one v) => if isNullishFalse v then [] else [v]
  | .someC (.many l) => l.toList.filter (fun v => !isNullishFalse v)

/-- JavaScript `+` on two textual (string-or-number) children: numeric
addition when both are numbers, string concatenation otherwise (with the
JavaScript decimal rendering of an integer). -/
def mergeTextual : NVal → NVal → NVal
  | .num m, .num n => .num (m + n)
  | a, b => .text (textOf a ++ textOf b)
where
  textOf : NVal → String
    | .text s => s
    | .num n => toString n
    | _ => ""

/-- One step of the simplification loop: pop the last element built so far;
if it and the incoming child are both textual, push their merge, otherwise
push both back. -/
def pushSimplified (acc : List NVal) (child : NVal) : List NVal :=
  match acc.getLast? with
  | none => acc ++ [child]
  | some previousChild =>
      if isTextualNode child && isTextualNode previousChild then
        acc.dropLast ++ [mergeTextual previousChild child]
      else
        acc ++ [child]

/-- `childrenToSimplifiedArray(nodeChildren)`: normalize into an array and
merge adjacent textual children into single runs. -/
def childrenToSimplifiedArray (c : COpt) : List NVal :=
  (childrenToArray c).foldl pushSimplified []

/-! ## The comparator -/

/-- `internalChildrenCompare` at the two call sites, whose arguments are
always the arrays produced by `childrenToSimplifiedArray` (so the non-array
branches of the source are dead here): identical arrays compare equal
(`a === b` collapsed to structural equality), otherwise the lengths must
match and the entries are compared pairwise with `cmp`. -/
def childListCompareWith (cmp : NVal → NVal → Bool) (xs ys : List NVal) : Bool :=
  if xs = ys then true
  else if xs.length ≠ ys.length then false
  else (xs.zip ys).all (fun p => cmp p.1 p.2)

/-- The props loop of `internalNodeCompare`: every non-`children` key of
`left` must exist in `right` (`prop in right`) with an equal value
(`===`, falling back to `lodash/isEqual` for object-typed values — both
collapsed to structural equality of `PVal`). -/
def propsSubsetCheck (left right : List (String × PVal)) : Bool :=
  left.all (fun kv => decide (lookupP right kv.1 = some kv.2))

/-- One layer of `internalNodeCompare(a, b, lenComp, isLoose)`, with the
recursive comparison of children entries abstracted as `cmp`.

Flow, as in the source: identity; either side falsy; `type` mismatch;
props subset (after the loose-mode nullish strip); simplified-children
comparison when either side has a `children` prop; finally the
length-comparator on the non-`children` key counts
(`leftKeys.length - leftHasChildren`, i.e. the length of the filtered
non-`children` props), with a textual `a` returning not-equal at this last
step. -/
def incBody (cmp : NVal → NVal → Bool) (lenComp : Nat → Nat → Bool)
    (isLoose : Bool) (a b : NVal) : Bool :=
  if a = b then true
  else if jsFalsy a || jsFalsy b then false
  else if jsTypeOf a ≠ jsTypeOf b then false
  else if !(propsSubsetCheck (effectiveProps isLoose a) (effectiveProps isLoose b)) then
    false
  else if ((activeChildren isLoose a).isSomeC || (activeChildren isLoose b).isSomeC)
      && !(childListCompareWith cmp
            (childrenToSimplifiedArray (activeChildren isLoose a))
            (childrenToSimplifiedArray (activeChildren isLoose b))) then
    false
  else if !(isTextualNode a) then
    lenComp (effectiveProps isLoose a).length (effectiveProps isLoose b).length
  else false

/-- `internalNodeCompare`, with a fuel argument bounding the recursion
depth.  The recursion descends only into simplified children arrays, whose
total size is strictly below the parent's, so `sizeN a + sizeN b` fuel
always suffices; `incF_stable` below proves the result independent of the
fuel whenever it is at least that. -/
def incF : Nat → (Nat → Nat → Bool) → Bool → NVal → NVal → Bool
  | 0, _, _, _, _ => false
  | f+1, lenComp, isLoose, a, b => incBody (incF f lenComp isLoose) lenComp isLoose a b

/-- The default length comparator `is` (`Object.is`), which on the natural
key counts is plain equality. -/
def natIs (m n : Nat) : Bool := m == n

/-- The `(a, b) => a <= b` length comparator the loose-matching callers
(`containsMatchingElement`, `matchesElement`) pass to `nodeMatches`. -/
def leComp (m n : Nat) : Bool := decide (m ≤ n)

/-- `nodeEqual(a, b)`: strict comparison, `lenComp = Object.is`. -/
def nodeEqual (a b : NVal) : Bool := incF (sizeN a + sizeN b) natIs false a b

/-- `nodeMatches(a, b, lenComp)`: loose comparison. -/
def nodeMatches (a b : NVal) (lenComp : Nat → Nat → Bool) : Bool :=
  incF (sizeN a + sizeN b) lenComp true a b

/-! ## Errors

Thrown exceptions, tagged with the spec's error-kind taxonomy and carrying
the literal message the source builds. -/

inductive ErrKind where
  | singleNodeRequired
  | rootRequired
  | invalidArgument
  | typeError
  | plainError
  deriving DecidableEq

structure JsError where
  kind : ErrKind
  message : String
  deriving DecidableEq

/-- The error `single` throws for cardinality ≠ 1:
`` Method “name” is only meant to be run on a single node. N found instead. `` -/
def singleNodeErr (op : String) (found : Nat) : JsError :=
  ⟨.singleNodeRequired,
    "Method “" ++ op ++ "” is only meant to be run on a single node. "
      ++ toString found ++ " found instead."⟩

/-- `ReactWrapper::op() can only be called on the root`. -/
def rootRequiredErr (op : String) : JsError :=
  ⟨.rootRequired, "ReactWrapper::" ++ op ++ "() can only be called on the root"⟩

/-! ## Live instance trees

`Inst` models a `ReactTestInstance` as the traversal and the wrapper see it:
its element view (`ty`/`props`/`childrenProp`, i.e. what `propsOfNode` and the
comparator consume), the live-component handle `instance` (`instRef`, `none`
for `null`), `_fiber.key`, the `instance` handle of its parent instance
(`parentInstRef`, for the derived root-ness check — every mounted instance
sits below the adapter's wrapping root component, so the parent object itself
exists), the truthiness of `parent.props.context` (read by `setContext`), and
its rendered children, which may contain textual leaves. -/

mutual
inductive TVal where
  | nullV
  | falseV
  | undefV
  | txt (s : String)
  | num (n : Int)
  | inst (i : Inst)
  deriving DecidableEq
inductive Inst where
  | mk (ty : NType) (props : List (String × PVal)) (childrenProp : COpt)
      (instRef : Option Nat) (fiberKey : Option String)
      (parentInstRef : Option Nat) (parentHasContextProp : Bool)
      (children : TList)
  deriving DecidableEq
inductive TList where
  | nil
  | cons (hd : TVal) (tl : TList)
  deriving DecidableEq
end

def Inst.ty : Inst → NType
  | .mk t _ _ _ _ _ _ _ => t
def Inst.props : Inst → List (String × PVal)
  | .mk _ ps _ _ _ _ _ _ => ps
def Inst.childrenProp : Inst → COpt
  | .mk _ _ c _ _ _ _ _ => c
def Inst.instRef : Inst → Option Nat
  | .mk _ _ _ r _ _ _ _ => r
def Inst.fiberKey : Inst → Option String
  | .mk _ _ _ _ k _ _ _ => k
def Inst.parentInstRef : Inst → Option Nat
  | .mk _ _ _ _ _ p _ _ => p
def Inst.parentHasContextProp : Inst → Bool
  | .mk _ _ _ _ _ _ h _ => h
def Inst.children : Inst → TList
  | .mk _ _ _ _ _ _ _ cs => cs

/-- The element view of an instance, as consumed by the comparator. -/
def Inst.asNVal (i : Inst) : NVal := .elem i.ty i.props i.childrenProp

def TVal.asNVal : TVal → NVal
  | .nullV => .nullV
  | .falseV => .falseV
  | .undefV => .undefV
  | .txt s => .text s
  | .num n => .num n
  | .inst i => i.asNVal

/-! ## `RSTTraversal.js`: `treeForEach` and `treeFilter`

```js
export function treeForEach(tree, fn) {
  if (tree !== null && tree !== false && typeof tree !== 'undefined') {
    fn(tree);
  }
  tree.children.forEach(node => treeForEach(node, fn));
}
```

The guard protects only the `fn(tree)` call; `tree.children` is read
unconditionally afterwards, so a `null`/`false`/`undefined` (or textual)
input throws a `TypeError`.  The model returns the ordered list of values
`fn` was called on together with the error thrown, if any (an error in a
child aborts the traversal, keeping the visits made so far). -/

/-- `null.children` / `undefined.children` throws. -/
def childrenOfNullErr (what : String) : JsError :=
  ⟨.typeError, "Cannot read property children of " ++ what⟩

/-- For values whose `children` property is `undefined` (booleans, strings,
numbers), `tree.children.forEach` throws. -/
def forEachOfUndefErr : JsError :=
  ⟨.typeError, "Cannot read property forEach of undefined"⟩

mutual
def treeForEachGo : TVal → List TVal × Option JsError
  | .nullV => ([], some (childrenOfNullErr "null"))
  | .undefV => ([], some (childrenOfNullErr "undefined"))
  | .falseV => ([], some forEachOfUndefErr)
  | .txt s => ([.txt s], some forEachOfUndefErr)
  | .num n => ([.num n], some forEachOfUndefErr)
  | .inst (.mk t ps cp ir k pr hc cs) =>
      let r := treeForEachList cs
      (.inst (.mk t ps cp ir k pr hc cs) :: r.1, r.2)
def treeForEachList : TList → List TVal × Option JsError
  | .nil => ([], none)
  | .cons h t =>
      let r := treeForEachGo h
      match r.2 with
      | some e => (r.1, some e)
      | none =>
          let r2 := treeForEachList t
          (r.1 ++ r2.1, r2.2)
end

/-- `treeForEach(tree, fn)`: the pre-order visit trace and the thrown error,
if any. -/
def treeForEach (t : TVal) : List TVal × Option JsError := treeForEachGo t

/-- `treeFilter(tree, fn)`: the visited nodes satisfying the predicate; a
crash during traversal propagates (the partial results are lost). -/
def treeFilter (t : TVal) (p : TVal → Bool) : Except JsError (List TVal) :=
  match treeForEach t with
  | (tr, none) => .ok (tr.filter p)
  | (_, some e) => .error e

/-! ## The selector predicate builder

Modelled from the spec: the selectors module (`./selectors`, providing
`buildPredicate`, `reduceTreesBySelector`, `hasClassName`) is not among the
provided sources; §4.2 of the spec describes `buildPredicate` as dispatching
on selector shape — a function used directly, a string parsed as a
dot-prefixed class token / bracket attribute token / bare identifier
(host tag or composite display name), a plain mapping as a props-subset
match with deep equality, or a type reference matched by identity — with
compound string forms requiring all component criteria to hold.  The model
represents a selector already classified into those shapes (`andSel` is the
compound conjunction). -/
inductive Selector where
  | pred (f : TVal → Bool)
  | classToken (cls : String)
  | attrToken (name : String) (value : Option PVal)
  | tagToken (ident : String)
  | propsMap (m : List (String × PVal))
  | typeRef (t : NType)
  | andSel (s₁ s₂ : Selector)

/-- Modelled from the spec: whether a node's `className` prop contains the
given class as a whitespace-separated word. -/
def hasClassWord (v : TVal) (cls : String) : Bool :=
  match v with
  | .inst i =>
      match lookupP i.props "className" with
      | some (.str s) => (s.splitOn " ").contains cls
      | _ => false
  | _ => false

/-- Modelled from the spec: `buildPredicate(selector)` compiles a selector
value into a node predicate (§4.2). -/
def buildPredicate : Selector → TVal → Bool
  | .pred f, v => f v
  | .classToken cls, v => hasClassWord v cls
  | .attrToken nm val, v =>
      (match v with
      | .inst i =>
          (match lookupP i.props nm with
          | some pv =>
              (match val with
              | none => true
              | some w => decide (pv = w))
          | none => false)
      | _ => false)
  | .tagToken id, v =>
      (match v with
      | .inst i =>
          (match i.ty with
          | .host tag => tag == id
          | .comp _ d _ => d == some id)
      | _ => false)
  | .propsMap m, v =>
      (match v with
      | .inst i => m.all (fun kv => decide (lookupP i.props kv.1 = some kv.2))
      | _ => false)
  | .typeRef t, v =>
      (match v with
      | .inst i => decide (i.ty = t)
      | _ => false)
  | .andSel s₁ s₂, v => buildPredicate s₁ v && buildPredicate s₂ v

/-! ## The wrapper (`ReactMountWrapper`) -/

/-- The wrapper's constructor state: the instance sequence, the root
component handle (`rootRef`, owning the renderer session), the original root
element description (`none` models `undefined`), and the renderer handle. -/
structure Wrapper where
  instances : List Inst
  rootRef : Nat
  rootElement : Option NVal
  renderer : Nat
  deriving DecidableEq

namespace ReactMountWrapper

/-- `this.length`, assigned `instances.length` by the constructor (and never
mutated afterwards). -/
def length (w : Wrapper) : Nat := w.instances.length

/-- `isRoot()`: `first && first.parent.instance === this.rootRef` — derived
from the parent linkage, not stored. -/
def isRoot (w : Wrapper) : Bool :=
  match w.instances.head? with
  | none => false
  | some i => i.parentInstRef == some w.rootRef

/-- `single(name, fn)`: throws unless the wrapper holds exactly one node,
otherwise runs the callback on `instances[0]`. -/
def single (w : Wrapper) (name : String) (fn : Inst → Except JsError α) :
    Except JsError α :=
  match w.instances with
  | [i] => fn i
  | l => .error (singleNodeErr name l.length)

/-- Reading `this.rootNode`: the property is never assigned anywhere in the
class, so the access yields `undefined`. -/
def rootNode (_ : Wrapper) : Option NVal := none

/-- `wrap(instances)`: a new wrapper over the given nodes — passing
`this.rootNode` (not `this.rootElement`) as the root element description. -/
def wrap (w : Wrapper) (instances : List Inst) : Wrapper :=
  ⟨instances, w.rootRef, rootNode w, w.renderer⟩

/-- lodash `compact`: drops falsy entries; instance objects are always
truthy, so on an instance sequence nothing is dropped. -/
def compactInst (l : List Inst) : List Inst := l.filter (fun _ => true)

/-- `filterWhereUnwrapped(instances, predicate)` =
`compact(instances.filter(predicate))`. -/
def filterWhereUnwrapped (l : List Inst) (p : Inst → Bool) : List Inst :=
  compactInst (l.filter p)

/-- `filter(selector)`: wraps the nodes satisfying the compiled predicate. -/
def filter (w : Wrapper) (s : Selector) : Wrapper :=
  wrap w (filterWhereUnwrapped w.instances (fun i => buildPredicate s (.inst i)))

/-- `not(selector)`: the source returns
`filterWhereUnwrapped(this.instances, n => !predicate(n))` directly — the
bare filtered instance array, without the `this.wrap(...)` every other query
method applies. -/
def not (w : Wrapper) (s : Selector) : List Inst :=
  filterWhereUnwrapped w.instances (fun i => !(buildPredicate s (.inst i)))

/-- `at(index)` (`at` is reserved in Lean; index in range — JavaScript would
wrap `[undefined]` otherwise). -/
def atIndex (w : Wrapper) (index : Nat) : Wrapper :=
  wrap w (match w.instances.get? index with
    | some i => [i]
    | none => [])

/-- `slice(begin, end)` via `Array#slice` on non-negative bounds. -/
def slice (w : Wrapper) (b e : Nat) : Wrapper :=
  wrap w ((w.instances.take e).drop b)

/-! ### Effects: the renderer/instance calls a successful mutator performs -/

inductive JsCallback where
  | fn (id : Nat)
  | notFn (v : PVal)
  deriving DecidableEq

/-- `typeof callback === 'function'`. -/
def JsCallback.callable : JsCallback → Bool
  | .fn _ => true
  | .notFn _ => false

inductive Effect where
  | setChildProps (props : List (String × PVal))
      (context : List (String × PVal)) (cb : Option JsCallback)
  | instSetState (ref : Nat) (st : List (String × PVal)) (cb : JsCallback)
  | render (el : Option NVal) (context : List (String × PVal))
  deriving DecidableEq

/-- `setProps(props, callback)`: root-only; the callback must be callable;
then `this.rootRef.setChildProps(props, {}, callback)` and the wrapper is
returned. -/
def setProps (w : Wrapper) (props : List (String × PVal)) (cb : JsCallback) :
    Except JsError (Effect × Wrapper) :=
  if isRoot w = false then .error (rootRequiredErr "setProps")
  else if cb.callable = false then
    .error ⟨.invalidArgument,
      "ReactWrapper::setProps() expects a function as its second argument"⟩
  else .ok (.setChildProps props [] (some cb), w)

/-- `setState(state, callback)`: root-only; callable callback; then
`this.instance().setState(state, ...)` (so `single('instance')` runs, and a
`null` instance makes the `setState` access throw). -/
def setState (w : Wrapper) (st : List (String × PVal)) (cb : JsCallback) :
    Except JsError (Effect × Wrapper) :=
  if isRoot w = false then .error (rootRequiredErr "setState")
  else if cb.callable = false then
    .error ⟨.invalidArgument,
      "ReactWrapper::setState() expects a function as its second argument"⟩
  else
    (single w "instance" (fun i => .ok i.instRef)) >>= fun r =>
      match r with
      | none => .error ⟨.typeError, "Cannot read property setState of null"⟩
      | some ref => .ok (.instSetState ref st cb, w)

/-- `setContext(context)`: root-only; requires
`this.instances[0].parent.props.context` to be truthy; then
`this.rootRef.setChildProps({}, context)`. -/
def setContext (w : Wrapper) (ctx : List (String × PVal)) :
    Except JsError (Effect × Wrapper) :=
  if isRoot w = false then .error (rootRequiredErr "setContext")
  else
    match w.instances.head? with
    | none => .error ⟨.typeError, "Cannot read property parent of undefined"⟩
    | some i =>
        if i.parentHasContextProp = false then
          .error ⟨.plainError,
            "ShallowWrapper::setContext() can only be called on a wrapper that was originally passed a context option"⟩
        else .ok (.setChildProps [] ctx none, w)

/-- `mount()`: root-only; `this.renderer.render(this.rootElement, {})`. -/
def mount (w : Wrapper) : Except JsError (Effect × Wrapper) :=
  if isRoot w = false then .error (rootRequiredErr "mount")
  else .ok (.render w.rootElement [], w)

/-! ### Single-node accessors -/

/-- `props()`: the single node's props object (non-`children` entries plus
the `children` prop). -/
def props (w : Wrapper) : Except JsError (List (String × PVal) × COpt) :=
  single w "props" (fun i => .ok (i.props, i.childrenProp))

/-- The result of indexing a props object. -/
inductive PropGet where
  | val (v : PVal)
  | childrenVal (c : CVal)
  | undefR
  deriving DecidableEq

def getPropVal (pr : List (String × PVal) × COpt) (pn : String) : PropGet :=
  if pn = "children" then
    match pr.2 with
    | .someC c => .childrenVal c
    | .noneC => .undefR
  else
    match lookupP pr.1 pn with
    | some v => .val v
    | none => .undefR

/-- `prop(propName)`: `this.props()[propName]` — delegating to `props()`, so
a cardinality failure is reported for the operation `props`. -/
def prop (w : Wrapper) (pn : String) : Except JsError PropGet :=
  (props w).map (fun pr => getPropVal pr pn)

/-- `instance()`: the single node's live component handle. -/
def instanceM (w : Wrapper) : Except JsError (Option Nat) :=
  single w "instance" (fun i => .ok i.instRef)

/-- `type()`. -/
def typeM (w : Wrapper) : Except JsError NType :=
  single w "type" (fun i => .ok i.ty)

/-- `key()`: `instance._fiber.key === undefined ? null : instance._fiber.key`
(`none` models the normalized `null`). -/
def key (w : Wrapper) : Except JsError (Option String) :=
  single w "key" (fun i => .ok i.fiberKey)

/-- The value of `type.displayName || type.name || type`. -/
inductive NameRes where
  | str (s : String)
  | raw (t : NType)
  deriving DecidableEq

/-- `name()` resolution: a host tag string has neither `displayName` nor a
(truthy) `name` property, so the type itself — the tag — is returned; a
composite falls back from `displayName` to the function's name to the
function itself. -/
def nameOf : NType → NameRes
  | .host tag => .str tag
  | .comp id d n =>
      match d with
      | some s => .str s
      | none =>
          match n with
          | some s => .str s
          | none => .raw (.comp id none n)

def name (w : Wrapper) : Except JsError NameRes :=
  single w "name" (fun i => .ok (nameOf i.ty))

/-- The live-component registry (external): what `instance.state` and
`instance.context` read on a class-component handle. -/
structure CompRec where
  state : List (String × PVal)
  ctx : List (String × PVal)

/-- The result of `state()`/`context()`: the whole hash, or — when a name is
supplied — the named field (`none` models `undefined`). -/
inductive HashGet where
  | whole (h : List (String × PVal))
  | field (v : Option PVal)

/-- `state(name?)`: root-ness is checked first; then `single('state',
instance => instance.instance.state)` (a `null` component handle makes the
`.state` access throw); then the optional name indexes the hash. -/
def state (env : Nat → CompRec) (w : Wrapper) (nm : Option String) :
    Except JsError HashGet :=
  if isRoot w = false then .error (rootRequiredErr "state")
  else
    (single w "state" (fun i =>
      match i.instRef with
      | none => .error ⟨.typeError, "Cannot read property state of null"⟩
      | some r => .ok (env r).state)) >>= fun st =>
    .ok (match nm with
      | none => .whole st
      | some k => .field (lookupP st k))

/-- `context(name?)`: root-ness first; `single('context', instance =>
instance.instance)`; an explicit error when the handle is `null`; then the
optional name indexes the context hash. -/
def context (env : Nat → CompRec) (w : Wrapper) (nm : Option String) :
    Except JsError HashGet :=
  if isRoot w = false then .error (rootRequiredErr "context")
  else
    (single w "context" (fun i => .ok i.instRef)) >>= fun r? =>
    match r? with
    | none =>
        .error ⟨.plainError,
          "ReactWrapper::context() can only be called on components with instances"⟩
    | some r =>
        .ok (match nm with
          | none => .whole (env r).ctx
          | some k => .field (lookupP (env r).ctx k))

/-! ### Containment checks -/

/-- `findWhereUnwrapped(instances, predicate)`: `flatMap` of `treeFilter`
over the wrapper's nodes (a traversal crash propagates). -/
def findWhereUnwrapped (l : List Inst) (p : TVal → Bool) :
    Except JsError (List TVal) :=
  match l with
  | [] => .ok []
  | i :: t =>
      treeFilter (.inst i) p >>= fun r =>
      findWhereUnwrapped t p >>= fun r2 =>
      .ok (r ++ r2)

/-- `containsMatchingElement(node)`: render the argument element through the
renderer machinery (`elementToInstance`, external — supplied as `renderEl`),
then search the full subtree for a node the rendered argument's first child
loosely matches under the `≤` length comparator. -/
def containsMatchingElement (renderEl : NVal → Inst) (w : Wrapper)
    (node : NVal) : Except JsError Bool :=
  let argInstance := renderEl node
  let argChild0 : NVal :=
    match argInstance.children with
    | .cons h _ => h.asNVal
    | .nil => .undefV
  (findWhereUnwrapped w.instances
      (fun other => nodeMatches argChild0 other.asNVal leComp)).map
    (fun found => decide (found.length > 0))

/-- `Array#every` with an effectful body (short-circuiting on `false`,
propagating a thrown error). -/
def everyM (f : α → Except JsError Bool) : List α → Except JsError Bool
  | [] => .ok true
  | x :: t => f x >>= fun b => if b then everyM f t else .ok false

/-- `Array#some` with an effectful body. -/
def someM (f : α → Except JsError Bool) : List α → Except JsError Bool
  | [] => .ok false
  | x :: t => f x >>= fun b => if b then .ok true else someM f t

/-- The argument of the all/any matching checks: an array of elements, or
any non-array value. -/
inductive JsArg where
  | arrayArg (nodes : List NVal)
  | otherArg (v : NVal)

/-- `containsAllMatchingElements(nodes)`: throws
`TypeError('nodes should be an Array')` on a non-array argument, otherwise
`nodes.every(node => this.containsMatchingElement(node))`. -/
def containsAllMatchingElements (renderEl : NVal → Inst) (w : Wrapper)
    (arg : JsArg) : Except JsError Bool :=
  match arg with
  | .otherArg _ => .error ⟨.invalidArgument, "nodes should be an Array"⟩
  | .arrayArg nodes => everyM (containsMatchingElement renderEl w) nodes

/-- `containsAnyMatchingElements(nodes)`:
`Array.isArray(nodes) && nodes.some(...)` — a non-array argument
short-circuits to the boolean `false`, nothing is thrown. -/
def containsAnyMatchingElements (renderEl : NVal → Inst) (w : Wrapper)
    (arg : JsArg) : Except JsError Bool :=
  match arg with
  | .otherArg _ => .ok false
  | .arrayArg nodes => someM (containsMatchingElement renderEl w) nodes

end ReactMountWrapper

/-! ## Well-formedness of the embedded data domain

JavaScript objects cannot carry duplicate keys, so every props mapping
reachable in a node value has pairwise-distinct keys. -/

mutual
def WFn : NVal → Bool
  | .elem _ ps c => decide (keysOf ps).Nodup && WFco c
  | _ => true
def WFco : COpt → Bool
  | .noneC => true
  | .someC c => WFc c
def WFc : CVal → Bool
  | .one v => WFn v
  | .many l => WFl l
def WFl : NList → Bool
  | .nil => true
  | .cons h t => WFn h && WFl t
end

/-- No two adjacent entries of the list are both textual — the shape
invariant `childrenToSimplifiedArray` establishes. -/
def noAdjText : List NVal → Bool
  | [] => true
  | [_] => true
  | x :: y :: t => !(isTextualNode x && isTextualNode y) && noAdjText (y :: t)

/-- Whether a call outcome is a thrown `SingleNodeRequiredError`. -/
def isSingleNodeErr : Except JsError α → Bool
  | .error e => e.kind == .singleNodeRequired
  | .ok _ => false

/-! ## Concrete sample data (for closed evaluations) -/

/-- `<span />` as a live instance below the root component (handle 7). -/
def sampleLeaf : Inst := .mk (.host "span") [] .noneC none none (some 7) false .nil

/-- `<div><span /></div>` as the root instance: its parent is the wrapping
root component, whose `instance` handle is 7. -/
def sampleRoot : Inst :=
  .mk (.host "div") [] .noneC none none (some 7) false (.cons (.inst sampleLeaf) .nil)

/-- An instance whose parent's `instance` handle (9) is not the root ref. -/
def sampleDeep : Inst := .mk (.host "p") [] .noneC none none (some 9) false .nil

/-- A freshly mounted root wrapper: `rootRef = 7`, a recorded root element. -/
def sampleRootWrapper : Wrapper :=
  ⟨[sampleRoot], 7, some (.elem (.host "div") [] .noneC), 3⟩

/-- A wrapper of length 0 (e.g. the result of a failed query). -/
def sampleEmptyWrapper : Wrapper := ⟨[], 7, some (.elem (.host "div") [] .noneC), 3⟩

/-- A wrapper of length 2 whose first node's parent is the root component. -/
def samplePairWrapper : Wrapper :=
  ⟨[sampleRoot, sampleLeaf], 7, some (.elem (.host "div") [] .noneC), 3⟩

/-- A single-node wrapper over a non-root instance. -/
def sampleNonRootWrapper : Wrapper :=
  ⟨[sampleDeep], 7, some (.elem (.host "div") [] .noneC), 3⟩

/-- A live-component registry with empty state/context hashes. -/
def sampleEnv : Nat → ReactMountWrapper.CompRec := fun _ => ⟨[], []⟩

/-- A renderer stub for the containment checks (external collaborator). -/
def sampleRenderEl : NVal → Inst := fun _ => sampleLeaf

/-- `<div a=1 />` as a comparand element. -/
def sampleNodeA : NVal := .elem (.host "div") [("a", .int 1)] .noneC

/-- `<span />` as a comparand element. -/
def sampleNodeB : NVal := .elem (.host "span") [] .noneC

/-! # Lemmas

## Sizes -/

theorem sizeN_pos (v : NVal) : 1 ≤ sizeN v := by
  cases v <;> simp [sizeN]

theorem sumSize_nil : sumSize [] = 0 := rfl

theorem sumSize_cons (a : NVal) (t : List NVal) :
    sumSize (a :: t) = sizeN a + sumSize t := by
  simp [sumSize]

theorem sumSize_append (l₁ l₂ : List NVal) :
    sumSize (l₁ ++ l₂) = sumSize l₁ + sumSize l₂ := by
  simp [sumSize]

theorem sizeN_le_sumSize {x : NVal} {l : List NVal} (h : x ∈ l) :
    sizeN x ≤ sumSize l := by
  induction l with
  | nil => cases h
  | cons a t ih =>
      rcases List.mem_cons.mp h with h' | h'
      · subst h'; rw [sumSize_cons]; omega
      · have := ih h'; rw [sumSize_cons]; omega

theorem sumSize_sublist {l₁ l₂ : List NVal} (h : List.Sublist l₁ l₂) :
    sumSize l₁ ≤ sumSize l₂ := by
  induction h with
  | slnil => exact Nat.le_refl _
  | cons a _ ih => rename_i t₁ t₂ _; rw [sumSize_cons]; omega
  | cons₂ a _ ih => rw [sumSize_cons, sumSize_cons]; omega

theorem sumSize_toList (l : NList) : sumSize l.toList = sizeL l := by
  match l with
  | .nil => rfl
  | .cons h t => rw [NList.toList, sumSize_cons, sizeL, sumSize_toList t]

theorem sumSize_childrenToArray (c : COpt) :
    sumSize (childrenToArray c) ≤ sizeCO c := by
  cases c with
  | noneC => simp [childrenToArray, sumSize]
  | someC cv =>
      cases cv with
      | one v =>
          rw [childrenToArray]
          split
          · simp [sumSize, sizeCO, sizeC]
          · rw [show sumSize [v] = sizeN v by simp [sumSize], sizeCO, sizeC]
      | many l =>
          rw [childrenToArray, sizeCO, sizeC, ← sumSize_toList]
          exact sumSize_sublist (List.filter_sublist _)

theorem sizeN_mergeTextual (a b : NVal) : sizeN (mergeTextual a b) = 1 := by
  cases a <;> cases b <;> rfl

theorem sumSize_pushSimplified (acc : List NVal) (x : NVal) :
    sumSize (pushSimplified acc x) ≤ sumSize acc + sizeN x := by
  rw [pushSimplified]
  split
  · rw [sumSize_append]; simp [sumSize]
  · rename_i p hl
    have hacc : acc.dropLast ++ [p] = acc := List.dropLast_append_getLast? p hl
    split
    · rw [sumSize_append, show sumSize [mergeTextual p x] = 1 by
        simp [sumSize, sizeN_mergeTextual]]
      have h2 : sumSize acc.dropLast + sumSize [p] = sumSize acc := by
        rw [← sumSize_append, hacc]
      have h3 : sumSize [p] = sizeN p := by simp [sumSize]
      have := sizeN_pos p
      have := sizeN_pos x
      omega
    · rw [sumSize_append]; simp [sumSize]

theorem sumSize_foldl_pushSimplified (l : List NVal) :
    ∀ acc, sumSize (l.foldl pushSimplified acc) ≤ sumSize acc + sumSize l := by
  induction l with
  | nil => intro acc; simp [sumSize]
  | cons a t ih =>
      intro acc
      rw [List.foldl_cons, sumSize_cons]
      calc sumSize (t.foldl pushSimplified (pushSimplified acc a))
          ≤ sumSize (pushSimplified acc a) + sumSize t := ih _
        _ ≤ (sumSize acc + sizeN a) + sumSize t := by
            have := sumSize_pushSimplified acc a; omega
        _ = sumSize acc + (sizeN a + sumSize t) := by omega

theorem sumSize_childrenToSimplifiedArray (c : COpt) :
    sumSize (childrenToSimplifiedArray c) ≤ sizeCO c := by
  rw [childrenToSimplifiedArray]
  calc sumSize ((childrenToArray c).foldl pushSimplified [])
      ≤ sumSize [] + sumSize (childrenToArray c) := sumSize_foldl_pushSimplified _ _
    _ ≤ sizeCO c := by
        have := sumSize_childrenToArray c; simp [sumSize] at *; omega

theorem sizeCO_activeChildren (il : Bool) (v : NVal) :
    sizeCO (activeChildren il v) + 1 ≤ sizeN v := by
  cases v with
  | elem t ps c =>
      rw [sizeN]
      have h : sizeCO (activeChildren il (.elem t ps c)) ≤ sizeCO c := by
        rcases c with _ | cv
        · simp [activeChildren, sizeCO]
        · rcases cv with v' | l
          · cases v' <;>
              simp only [activeChildren, sizeCO, sizeC, sizeN] <;>
              first
              | omega
              | (split <;> simp [sizeCO, sizeC, sizeN])
          · simp [activeChildren]
      omega
  | nullV => simp [activeChildren, sizeCO, sizeN]
  | falseV => simp [activeChildren, sizeCO, sizeN]
  | undefV => simp [activeChildren, sizeCO, sizeN]
  | text s => simp [activeChildren, sizeCO, sizeN]
  | num n => simp [activeChildren, sizeCO, sizeN]

/-- The key recursion bound: the simplified children array of either
comparand is strictly smaller than the comparand itself. -/
theorem sumSize_simplified_lt (il : Bool) (v : NVal) :
    sumSize (childrenToSimplifiedArray (activeChildren il v)) < sizeN v := by
  have h1 := sumSize_childrenToSimplifiedArray (activeChildren il v)
  have h2 := sizeCO_activeChildren il v
  omega

/-! ## Fuel stability of the comparator -/

theorem list_all_congr {f g : α → Bool} {l : List α}
    (h : ∀ x ∈ l, f x = g x) : l.all f = l.all g := by
  induction l with
  | nil => rfl
  | cons a t ih =>
      rw [List.all_cons, List.all_cons, h a (List.mem_cons_self a t),
        ih (fun x hx => h x (List.mem_cons_of_mem a hx))]

theorem childListCompareWith_congr {cmp cmp' : NVal → NVal → Bool}
    {xs ys : List NVal} (h : ∀ x ∈ xs, ∀ y ∈ ys, cmp x y = cmp' x y) :
    childListCompareWith cmp xs ys = childListCompareWith cmp' xs ys := by
  rw [childListCompareWith, childListCompareWith]
  split
  · rfl
  split
  · rfl
  exact list_all_congr (fun p hp =>
    h p.1 (List.of_mem_zip hp).1 p.2 (List.of_mem_zip hp).2)

theorem incBody_congr {cmp cmp' : NVal → NVal → Bool}
    (lenComp : Nat → Nat → Bool) (il : Bool) (a b : NVal)
    (h : ∀ x ∈ childrenToSimplifiedArray (activeChildren il a),
         ∀ y ∈ childrenToSimplifiedArray (activeChildren il b),
         cmp x y = cmp' x y) :
    incBody cmp lenComp il a b = incBody cmp' lenComp il a b := by
  rw [incBody, incBody, childListCompareWith_congr h]

/-- The comparator's value does not depend on the fuel, provided the fuel is
at least `sizeN a + sizeN b`. -/
theorem incF_stable : ∀ f g lenComp il (a b : NVal),
    sizeN a + sizeN b ≤ f → sizeN a + sizeN b ≤ g →
    incF f lenComp il a b = incF g lenComp il a b := by
  intro f
  induction f with
  | zero =>
      intro g lenComp il a b hf _
      have := sizeN_pos a
      omega
  | succ f ih =>
      intro g lenComp il a b hf hg
      match g with
      | 0 =>
          have := sizeN_pos a
          omega
      | g + 1 =>
          rw [incF, incF]
          apply incBody_congr
          intro x hx y hy
          have hxa : sizeN x < sizeN a :=
            Nat.lt_of_le_of_lt (sizeN_le_sumSize hx) (sumSize_simplified_lt il a)
          have hyb : sizeN y < sizeN b :=
            Nat.lt_of_le_of_lt (sizeN_le_sumSize hy) (sumSize_simplified_lt il b)
          exact ih g lenComp il x y (by omega) (by omega)

/-! ## Props lookup -/

theorem lookupP_cons_pos {a : String × PVal} {t : List (String × PVal)}
    {k : String} (hk : (a.1 == k) = true) : lookupP (a :: t) k = some a.2 := by
  simp [lookupP, List.find?_cons, hk]

theorem lookupP_cons_neg {a : String × PVal} {t : List (String × PVal)}
    {k : String} (hk : (a.1 == k) = false) : lookupP (a :: t) k = lookupP t k := by
  simp [lookupP, List.find?_cons, hk]

theorem lookupP_mem {l : List (String × PVal)} {k : String} {v : PVal}
    (h : lookupP l k = some v) : (k, v) ∈ l := by
  induction l with
  | nil => simp [lookupP] at h
  | cons a t ih =>
      by_cases hk : (a.1 == k) = true
      · rw [lookupP_cons_pos hk] at h
        have hkey : a.1 = k := by simpa using hk
        have hval : a.2 = v := by simpa using h
        have : a = (k, v) := Prod.ext hkey hval
        rw [← this]; exact List.mem_cons_self a t
      · rw [lookupP_cons_neg (by simpa using hk)] at h
        exact List.mem_cons_of_mem a (ih h)

theorem mem_keysOf_of_lookup {l : List (String × PVal)} {k : String} {v : PVal}
    (h : lookupP l k = some v) : k ∈ keysOf l := by
  have := lookupP_mem h
  rw [keysOf]
  exact List.mem_map_of_mem Prod.fst this

theorem exists_lookupP_of_mem_keys {l : List (String × PVal)} {k : String}
    (h : k ∈ keysOf l) : ∃ v, lookupP l k = some v := by
  induction l with
  | nil => simp [keysOf] at h
  | cons a t ih =>
      by_cases hk : (a.1 == k) = true
      · exact ⟨a.2, lookupP_cons_pos hk⟩
      · have hne : a.1 ≠ k := by simpa using hk
        have hmem : k ∈ keysOf t := by
          rw [keysOf, List.map_cons] at h
          rcases List.mem_cons.mp h with h' | h'
          · exact absurd h'.symm hne
          · exact h'
        obtain ⟨v, hv⟩ := ih hmem
        exact ⟨v, by rw [lookupP_cons_neg (by simpa using hk)]; exact hv⟩

theorem lookupP_of_mem_nodup {l : List (String × PVal)}
    (hnd : (keysOf l).Nodup) {k : String} {v : PVal} (h : (k, v) ∈ l) :
    lookupP l k = some v := by
  induction l with
  | nil => cases h
  | cons a t ih =>
      rw [keysOf, List.map_cons, List.nodup_cons] at hnd
      rcases List.mem_cons.mp h with h' | h'
      · rw [← h', lookupP_cons_pos (by simp)]
      · have hne : (a.1 == k) = false := by
          rw [beq_eq_false_iff_ne]
          intro hc
          exact hnd.1 (hc ▸ List.mem_map_of_mem Prod.fst h')
        rw [lookupP_cons_neg hne]
        exact ih hnd.2 h'

/-- The forward props check, equal key counts and duplicate-free keys force
the reverse props check: the heart of `nodeEqual`'s symmetry. -/
theorem propsSubsetCheck_swap {L R : List (String × PVal)}
    (hL : (keysOf L).Nodup) (hR : (keysOf R).Nodup)
    (hlen : L.length = R.length) (h : propsSubsetCheck L R = true) :
    propsSubsetCheck R L = true := by
  rw [propsSubsetCheck, List.all_eq_true] at h ⊢
  replace h : ∀ kv ∈ L, lookupP R kv.1 = some kv.2 :=
    fun kv hk => of_decide_eq_true (h kv hk)
  have hsub : ∀ k ∈ keysOf L, k ∈ keysOf R := by
    intro k hk
    rw [keysOf] at hk
    obtain ⟨kv, hm, hk1⟩ := List.mem_map.mp hk
    exact hk1 ▸ mem_keysOf_of_lookup (h kv hm)
  have hcardL : (keysOf L).toFinset.card = L.length := by
    rw [List.toFinset_card_of_nodup hL, keysOf, List.length_map]
  have hcardR : (keysOf R).toFinset.card = R.length := by
    rw [List.toFinset_card_of_nodup hR, keysOf, List.length_map]
  have hfsub : (keysOf L).toFinset ⊆ (keysOf R).toFinset := fun k hk =>
    List.mem_toFinset.mpr (hsub k (List.mem_toFinset.mp hk))
  have hfeq : (keysOf L).toFinset = (keysOf R).toFinset :=
    Finset.eq_of_subset_of_card_le hfsub (by rw [hcardR, hcardL, hlen])
  intro kv hkv
  apply decide_eq_true
  have hkL : kv.1 ∈ keysOf L := by
    have h1 : kv.1 ∈ keysOf R := by
      rw [keysOf]; exact List.mem_map_of_mem Prod.fst hkv
    have h2 := List.mem_toFinset.mpr h1
    rw [← hfeq] at h2
    exact List.mem_toFinset.mp h2
  obtain ⟨v, hv⟩ := exists_lookupP_of_mem_keys hkL
  have hmemL : (kv.1, v) ∈ L := lookupP_mem hv
  have h1 : lookupP R kv.1 = some v := h _ hmemL
  have h2 : lookupP R kv.1 = some kv.2 := lookupP_of_mem_nodup hR (by
    have : (kv.1, kv.2) = kv := rfl
    rw [this]; exact hkv)
  rw [h1] at h2
  injection h2 with h3
  rw [hv, h3]

/-! ## Well-formedness propagation -/

theorem WFn_of_textual {x : NVal} (h : isTextualNode x = true) : WFn x = true := by
  cases x <;> first
    | rfl
    | simp [isTextualNode] at h

theorem WFl_toList {l : NList} (h : WFl l = true) {x : NVal}
    (hx : x ∈ l.toList) : WFn x = true := by
  match l with
  | .nil => simp [NList.toList] at hx
  | .cons a t =>
      rw [WFl, Bool.and_eq_true] at h
      rw [NList.toList] at hx
      rcases List.mem_cons.mp hx with h' | h'
      · exact h' ▸ h.1
      · exact WFl_toList h.2 h'

theorem WFn_of_mem_childrenToArray {c : COpt} (h : WFco c = true) {x : NVal}
    (hx : x ∈ childrenToArray c) : WFn x = true := by
  cases c with
  | noneC => simp [childrenToArray] at hx
  | someC cv =>
      cases cv with
      | one v =>
          rw [childrenToArray] at hx
          split at hx
          · simp at hx
          · rw [WFco, WFc] at h
            rw [List.mem_singleton.mp hx]
            exact h
      | many l =>
          rw [childrenToArray] at hx
          rw [WFco, WFc] at h
          exact WFl_toList h (List.mem_filter.mp hx).1

theorem isTextualNode_mergeTextual (a b : NVal) :
    isTextualNode (mergeTextual a b) = true := by
  cases a <;> cases b <;> rfl

theorem mem_pushSimplified {acc : List NVal} {z y : NVal}
    (h : y ∈ pushSimplified acc z) :
    isTextualNode y = true ∨ y ∈ acc ∨ y = z := by
  rw [pushSimplified] at h
  split at h
  · rcases List.mem_append.mp h with h' | h'
    · exact Or.inr (Or.inl h')
    · exact Or.inr (Or.inr (List.mem_singleton.mp h'))
  · split at h
    · rcases List.mem_append.mp h with h' | h'
      · exact Or.inr (Or.inl ((List.dropLast_sublist acc).subset h'))
      · rw [List.mem_singleton.mp h']
        exact Or.inl (isTextualNode_mergeTextual _ _)
    · rcases List.mem_append.mp h with h' | h'
      · exact Or.inr (Or.inl h')
      · exact Or.inr (Or.inr (List.mem_singleton.mp h'))

theorem mem_foldl_pushSimplified {l : List NVal} :
    ∀ {acc : List NVal} {y : NVal}, y ∈ l.foldl pushSimplified acc →
    isTextualNode y = true ∨ y ∈ acc ∨ y ∈ l := by
  induction l with
  | nil =>
      intro acc y h
      rw [List.foldl_nil] at h
      exact Or.inr (Or.inl h)
  | cons a t ih =>
      intro acc y h
      rw [List.foldl_cons] at h
      rcases ih h with ht | hacc | hmem
      · exact Or.inl ht
      · rcases mem_pushSimplified hacc with ht | h' | h'
        · exact Or.inl ht
        · exact Or.inr (Or.inl h')
        · exact Or.inr (Or.inr (h' ▸ List.mem_cons_self a t))
      · exact Or.inr (Or.inr (List.mem_cons_of_mem a hmem))

theorem mem_childrenToSimplifiedArray {c : COpt} {y : NVal}
    (h : y ∈ childrenToSimplifiedArray c) :
    isTextualNode y = true ∨ y ∈ childrenToArray c := by
  rw [childrenToSimplifiedArray] at h
  rcases mem_foldl_pushSimplified h with ht | hacc | hmem
  · exact Or.inl ht
  · simp at hacc
  · exact Or.inr hmem

theorem WFco_activeChildren (il : Bool) {v : NVal} (h : WFn v = true) :
    WFco (activeChildren il v) = true := by
  cases v with
  | elem t ps c =>
      rw [WFn, Bool.and_eq_true] at h
      rcases c with _ | cv
      · rfl
      · rcases cv with v' | ls
        · cases v' with
          | nullV =>
              rw [activeChildren]
              split
              · rfl
              · exact h.2
          | undefV => rfl
          | falseV => exact h.2
          | text s => exact h.2
          | num n => exact h.2
          | elem t' ps' c' => exact h.2
        · exact h.2
  | nullV => rfl
  | falseV => rfl
  | undefV => rfl
  | text s => rfl
  | num n => rfl

theorem WFn_of_mem_simplified {il : Bool} {v x : NVal} (hW : WFn v = true)
    (hx : x ∈ childrenToSimplifiedArray (activeChildren il v)) : WFn x = true := by
  rcases mem_childrenToSimplifiedArray hx with ht | hmem
  · exact WFn_of_textual ht
  · exact WFn_of_mem_childrenToArray (WFco_activeChildren il hW) hmem

theorem keysOf_effectiveProps_nodup {il : Bool} {v : NVal} (h : WFn v = true) :
    (keysOf (effectiveProps il v)).Nodup := by
  cases v with
  | elem t ps c =>
      rw [WFn, Bool.and_eq_true] at h
      have hnd : (keysOf ps).Nodup := of_decide_eq_true h.1
      have hsub : List.Sublist (keysOf (effectiveProps il (.elem t ps c))) (keysOf ps) := by
        rw [keysOf, keysOf, effectiveProps]
        exact List.Sublist.map Prod.fst (List.filter_sublist ps)
      exact hsub.nodup hnd
  | nullV => simp [effectiveProps, keysOf]
  | falseV => simp [effectiveProps, keysOf]
  | undefV => simp [effectiveProps, keysOf]
  | text s => simp [effectiveProps, keysOf]
  | num n => simp [effectiveProps, keysOf]

/-! ## Symmetry helpers -/

theorem natIs_comm (m n : Nat) : natIs m n = natIs n m := by
  rw [natIs, natIs]
  apply Bool.coe_iff_coe.mp
  simp only [beq_iff_eq]
  exact eq_comm

theorem childListCompareWith_symm {cmp : NVal → NVal → Bool}
    {xs ys : List NVal} (h : ∀ x ∈ xs, ∀ y ∈ ys, cmp x y = cmp y x) :
    childListCompareWith cmp xs ys = childListCompareWith cmp ys xs := by
  rw [childListCompareWith, childListCompareWith]
  by_cases hxy : xs = ys
  · rw [if_pos hxy, if_pos hxy.symm]
  rw [if_neg hxy, if_neg (Ne.symm hxy)]
  by_cases hlen : xs.length = ys.length
  · rw [if_neg (by omega), if_neg (by omega)]
    rw [show ys.zip xs = (xs.zip ys).map Prod.swap from (List.zip_swap xs ys).symm,
      List.all_map]
    apply list_all_congr
    intro p hp
    exact h p.1 (List.of_mem_zip hp).1 p.2 (List.of_mem_zip hp).2
  · rw [if_pos hlen, if_pos (by omega)]

/-! ## The textual path of the comparator -/

/-- For a textual `a`, the comparator is exactly identity: the only step
that can return "equal" is step 1 (`a === b`); a textual `a` surviving to
the final step returns not-equal there. -/
theorem incBody_textual (cmp : NVal → NVal → Bool) (lenComp : Nat → Nat → Bool)
    (il : Bool) {a : NVal} (b : NVal) (h : isTextualNode a = true) :
    incBody cmp lenComp il a b = decide (a = b) := by
  by_cases hab : a = b
  · simp [incBody, hab]
  rw [decide_eq_false hab]
  by_cases hfa : jsFalsy a = true
  · simp [incBody, hab, hfa]
  by_cases hfb : jsFalsy b = true
  · simp [incBody, hab, hfb]
  by_cases hty : jsTypeOf a = jsTypeOf b
  · have hpa : effectiveProps il a = [] := by
      cases a <;> simp_all [effectiveProps, isTextualNode]
    have hpb : effectiveProps il b = [] := by
      cases a <;> cases b <;> simp_all [effectiveProps, isTextualNode, jsTypeOf]
    have hca : activeChildren il a = .noneC := by
      cases a <;> simp_all [activeChildren, isTextualNode]
    have hcb : activeChildren il b = .noneC := by
      cases a <;> cases b <;> simp_all [activeChildren, isTextualNode, jsTypeOf]
    simp [incBody, hab, hfa, hfb, hty, hpa, hpb, hca, hcb, propsSubsetCheck,
      COpt.isSomeC, h]
  · simp [incBody, hab, hfa, hfb, hty]

/-! ## Symmetry of the strict comparator -/

theorem ifchain_eq (p q c t n : Bool) :
    (if !p then false else if q && !c then false else if t then n else false)
      = (p && (!q || c) && t && n) := by
  cases p <;> cases q <;> cases c <;> cases t <;> cases n <;> rfl

/-- On a non-textual comparand that survives the identity, falsiness and
type checks, the comparator is the conjunction of the props-subset check,
the children comparison (when either side has children) and the
length-comparator verdict. -/
theorem incBody_nontextual_form (cmp : NVal → NVal → Bool)
    (lenComp : Nat → Nat → Bool) (il : Bool) {a b : NVal}
    (hab : a ≠ b) (hfa : jsFalsy a = false) (hfb : jsFalsy b = false)
    (hty : jsTypeOf a = jsTypeOf b) (hta : isTextualNode a = false) :
    incBody cmp lenComp il a b =
      (propsSubsetCheck (effectiveProps il a) (effectiveProps il b)
        && (!((activeChildren il a).isSomeC || (activeChildren il b).isSomeC)
            || childListCompareWith cmp
                 (childrenToSimplifiedArray (activeChildren il a))
                 (childrenToSimplifiedArray (activeChildren il b)))
        && lenComp (effectiveProps il a).length (effectiveProps il b).length) := by
  rw [incBody, if_neg hab]
  rw [if_neg (show ¬(jsFalsy a || jsFalsy b) = true by simp [hfa, hfb])]
  rw [if_neg (show ¬jsTypeOf a ≠ jsTypeOf b by simp [hty])]
  rw [ifchain_eq]
  simp [hta]

theorem incBody_symm {cmp : NVal → NVal → Bool} {a b : NVal}
    (hWa : WFn a = true) (hWb : WFn b = true)
    (hsym : ∀ x ∈ childrenToSimplifiedArray (activeChildren false a),
            ∀ y ∈ childrenToSimplifiedArray (activeChildren false b),
            cmp x y = cmp y x) :
    incBody cmp natIs false a b = incBody cmp natIs false b a := by
  by_cases hab : a = b
  · subst hab; rfl
  have hab' : b ≠ a := Ne.symm hab
  by_cases hfa : jsFalsy a = true
  · simp [incBody, hab, hab', hfa]
  by_cases hfb : jsFalsy b = true
  · simp [incBody, hab, hab', hfb]
  by_cases hty : jsTypeOf a = jsTypeOf b
  case neg => simp [incBody, hab, hab', hfa, hfb, hty, Ne.symm hty]
  by_cases hta : isTextualNode a = true
  · -- both sides are textual (`jsTypeOf` of a non-falsy non-textual value is
    -- `some _`, of a textual one `none`), so both reduce to identity
    have htb : isTextualNode b = true := by
      cases a <;> cases b <;> simp_all [isTextualNode, jsTypeOf, jsFalsy]
    rw [incBody_textual _ _ _ b hta, incBody_textual _ _ _ a htb]
    simp [eq_comm]
  have htb : isTextualNode b = false := by
    cases a <;> cases b <;> simp_all [isTextualNode, jsTypeOf, jsFalsy]
  rw [Bool.not_eq_true] at hta hfa hfb
  -- both comparands are elements now; reduce both sides to the `&&` form
  rw [incBody_nontextual_form cmp natIs false hab hfa hfb hty hta,
    incBody_nontextual_form cmp natIs false hab' hfb hfa hty.symm htb]
  -- identify the symmetric components
  rw [childListCompareWith_symm hsym]
  rw [Bool.or_comm ((activeChildren false b).isSomeC)]
  rw [natIs_comm (effectiveProps false b).length]
  -- it remains to swap the props-subset check under the equal-count conjunct
  have hnodA : (keysOf (effectiveProps false a)).Nodup :=
    @keysOf_effectiveProps_nodup false a hWa
  have hnodB : (keysOf (effectiveProps false b)).Nodup :=
    @keysOf_effectiveProps_nodup false b hWb
  apply Bool.coe_iff_coe.mp
  constructor
  · intro hh
    rw [Bool.and_eq_true, Bool.and_eq_true] at hh
    obtain ⟨⟨hp, hx⟩, hn⟩ := hh
    have hlen : (effectiveProps false a).length = (effectiveProps false b).length := by
      simpa [natIs] using hn
    have hp₂ := propsSubsetCheck_swap hnodA hnodB hlen hp
    rw [Bool.and_eq_true, Bool.and_eq_true]
    exact ⟨⟨hp₂, hx⟩, hn⟩
  · intro hh
    rw [Bool.and_eq_true, Bool.and_eq_true] at hh
    obtain ⟨⟨hp, hx⟩, hn⟩ := hh
    have hlen : (effectiveProps false a).length = (effectiveProps false b).length := by
      simpa [natIs] using hn
    have hp₂ := propsSubsetCheck_swap hnodB hnodA hlen.symm hp
    rw [Bool.and_eq_true, Bool.and_eq_true]
    exact ⟨⟨hp₂, hx⟩, hn⟩

theorem incF_symm : ∀ (f : Nat) (a b : NVal), WFn a = true → WFn b = true →
    incF f natIs false a b = incF f natIs false b a := by
  intro f
  induction f with
  | zero => intro a b _ _; rfl
  | succ f ih =>
      intro a b hWa hWb
      rw [incF, incF]
      apply incBody_symm hWa hWb
      intro x hx y hy
      exact ih x y (WFn_of_mem_simplified hWa hx) (WFn_of_mem_simplified hWb hy)

/-- `nodeEqual` is reflexive: step 1 (`a === b`) fires immediately. -/
theorem nodeEqual_refl (a : NVal) : nodeEqual a a = true := by
  rw [nodeEqual]
  obtain ⟨f, hf⟩ : ∃ f, sizeN a + sizeN a = f + 1 := by
    have := sizeN_pos a
    exact ⟨sizeN a + sizeN a - 1, by omega⟩
  rw [hf, incF, incBody, if_pos rfl]

/-- `nodeEqual` is symmetric on well-formed nodes. -/
theorem nodeEqual_symm (a b : NVal) (hWa : WFn a = true) (hWb : WFn b = true) :
    nodeEqual a b = nodeEqual b a := by
  rw [nodeEqual, nodeEqual, Nat.add_comm (sizeN b)]
  exact incF_symm _ a b hWa hWb

/-! ## Idempotence of `childrenToSimplifiedArray` -/

theorem noAdjText_of_cons {a : NVal} {l : List NVal}
    (h : noAdjText (a :: l) = true) : noAdjText l = true := by
  cases l with
  | nil => rfl
  | cons b t =>
      rw [noAdjText, Bool.and_eq_true] at h
      exact h.2

theorem noAdjText_pair {u : List NVal} {p x : NVal} {w : List NVal}
    (h : noAdjText (u ++ p :: x :: w) = true) :
    (isTextualNode p && isTextualNode x) = false := by
  induction u with
  | nil =>
      rw [List.nil_append, noAdjText, Bool.and_eq_true] at h
      cases hpx : (isTextualNode p && isTextualNode x)
      · rfl
      · exfalso
        rw [hpx] at h
        simp at h
  | cons a t ih => exact ih (noAdjText_of_cons h)

theorem noAdjText_snoc {l : List NVal} {x : NVal} (h : noAdjText l = true)
    (hl : ∀ p, l.getLast? = some p → (isTextualNode p && isTextualNode x) = false) :
    noAdjText (l ++ [x]) = true := by
  induction l with
  | nil => rfl
  | cons a t ih =>
      cases t with
      | nil =>
          have hpair := hl a rfl
          show noAdjText (a :: x :: []) = true
          rw [noAdjText, hpair]
          rfl
      | cons b t' =>
          rw [noAdjText, Bool.and_eq_true] at h
          have hrec := ih h.2 (fun p hp => hl p (by
            rw [List.getLast?_cons_cons]; exact hp))
          show noAdjText (a :: b :: (t' ++ [x])) = true
          rw [noAdjText, Bool.and_eq_true]
          exact ⟨h.1, hrec⟩

theorem noAdjText_replace_last {l : List NVal} {p q : NVal}
    (himp : isTextualNode q = true → isTextualNode p = true)
    (h : noAdjText (l ++ [p]) = true) : noAdjText (l ++ [q]) = true := by
  induction l with
  | nil => rfl
  | cons a t ih =>
      cases t with
      | nil =>
          have h1 : (isTextualNode a && isTextualNode p) = false :=
            noAdjText_pair (u := []) (w := []) (by
              show noAdjText ([] ++ a :: p :: []) = true
              simpa using h)
          have h2 : (isTextualNode a && isTextualNode q) = false := by
            cases hq : isTextualNode q
            · simp
            · have hp := himp hq
              rw [hp] at h1
              simpa using h1
          show noAdjText (a :: q :: []) = true
          rw [noAdjText, h2]
          rfl
      | cons b t' =>
          have h' : noAdjText ((b :: t') ++ [p]) = true :=
            noAdjText_of_cons (a := a) h
          have hrec := ih h'
          have hab : (isTextualNode a && isTextualNode b) = false :=
            noAdjText_pair (u := []) (w := t' ++ [p]) (by
              show noAdjText ([] ++ a :: b :: (t' ++ [p])) = true
              simpa using h)
          show noAdjText (a :: b :: (t' ++ [q])) = true
          rw [noAdjText, Bool.and_eq_true]
          refine ⟨?_, hrec⟩
          rw [hab]
          rfl

theorem noAdjText_push {acc : List NVal} (x : NVal)
    (h : noAdjText acc = true) : noAdjText (pushSimplified acc x) = true := by
  rw [pushSimplified]
  split
  · rename_i hl
    rw [List.getLast?_eq_none_iff.mp hl]
    rfl
  · rename_i p hl
    have hacc : acc.dropLast ++ [p] = acc := List.dropLast_append_getLast? p hl
    split
    · rename_i htx
      rw [Bool.and_eq_true] at htx
      apply noAdjText_replace_last (p := p)
      · intro _; exact htx.2
      · rw [hacc]; exact h
    · rename_i htx
      apply noAdjText_snoc h
      intro q hq
      rw [hl] at hq
      injection hq with hq
      rw [← hq]
      cases hpx : (isTextualNode p && isTextualNode x)
      · rfl
      · exfalso
        rw [Bool.and_eq_true] at hpx
        exact htx (by rw [hpx.1, hpx.2]; rfl)

theorem noAdjText_foldl {l : List NVal} :
    ∀ {acc : List NVal}, noAdjText acc = true →
    noAdjText (l.foldl pushSimplified acc) = true := by
  induction l with
  | nil => intro acc h; rw [List.foldl_nil]; exact h
  | cons a t ih =>
      intro acc h
      rw [List.foldl_cons]
      exact ih (noAdjText_push a h)

theorem noAdjText_simplified (c : COpt) :
    noAdjText (childrenToSimplifiedArray c) = true := by
  rw [childrenToSimplifiedArray]
  exact noAdjText_foldl rfl

theorem not_nullish_simplified {c : COpt} {y : NVal}
    (h : y ∈ childrenToSimplifiedArray c) : isNullishFalse y = false := by
  rcases mem_childrenToSimplifiedArray h with ht | hmem
  · cases y <;> first
      | rfl
      | simp [isTextualNode] at ht
  · cases c with
    | noneC => simp [childrenToArray] at hmem
    | someC cv =>
        cases cv with
        | one v =>
            rw [childrenToArray] at hmem
            split at hmem
            · simp at hmem
            · rename_i hv
              rw [List.mem_singleton.mp hmem]
              simpa using hv
        | many l =>
            rw [childrenToArray] at hmem
            have := (List.mem_filter.mp hmem).2
            simpa using this

/-- A simplified array re-fed to the fold is returned unchanged. -/
theorem foldl_push_id {l : List NVal} :
    ∀ {acc : List NVal}, noAdjText (acc ++ l) = true →
    l.foldl pushSimplified acc = acc ++ l := by
  induction l with
  | nil => intro acc _; rw [List.foldl_nil, List.append_nil]
  | cons x t ih =>
      intro acc h
      rw [List.foldl_cons]
      have hpush : pushSimplified acc x = acc ++ [x] := by
        rw [pushSimplified]
        split
        · rfl
        · rename_i p hl
          have hacc : acc.dropLast ++ [p] = acc := List.dropLast_append_getLast? p hl
          have hpair : (isTextualNode p && isTextualNode x) = false := by
            apply noAdjText_pair (u := acc.dropLast) (w := t)
            rw [show acc.dropLast ++ p :: x :: t = (acc.dropLast ++ [p]) ++ x :: t by
              simp]
            rw [hacc]
            exact h
          rw [if_neg]
          intro hcontra
          rw [Bool.and_eq_true] at hcontra
          rw [hcontra.1, hcontra.2] at hpair
          simp at hpair
      rw [hpush]
      have h' : noAdjText ((acc ++ [x]) ++ t) = true := by
        rw [show (acc ++ [x]) ++ t = acc ++ x :: t by simp]
        exact h
      rw [ih h']
      simp

theorem toList_ofList (l : List NVal) : (NList.ofList l).toList = l := by
  induction l with
  | nil => rfl
  | cons a t ih => rw [NList.ofList, NList.toList, ih]

/-- Re-running `childrenToSimplifiedArray` on its own output (as a children
array) is the identity. -/
theorem childrenToSimplifiedArray_idem (c : COpt) :
    childrenToSimplifiedArray
        (.someC (.many (NList.ofList (childrenToSimplifiedArray c))))
      = childrenToSimplifiedArray c := by
  have h1 : childrenToArray (.someC (.many (NList.ofList (childrenToSimplifiedArray c))))
      = childrenToSimplifiedArray c := by
    rw [childrenToArray, toList_ofList]
    apply List.filter_eq_self.mpr
    intro y hy
    rw [not_nullish_simplified hy]
    rfl
  conv_lhs => rw [childrenToSimplifiedArray]
  rw [h1]
  have h2 : noAdjText ([] ++ childrenToSimplifiedArray c) = true := by
    rw [List.nil_append]
    exact noAdjText_simplified c
  rw [foldl_push_id h2, List.nil_append]

/-! # Claims -/

/-- Claim C1 — code evaluation at the failing input.  `not(selector)` returns
the bare filtered instance array (`filterWhereUnwrapped(this.instances, n =>
!predicate(n))`), not a new wrapper sharing `rootRef`/renderer: its body
omits the `this.wrap(...)` every other query method applies, contradicting
its own doc comment (`@returns {ReactWrapper}`).  Here, on a one-node
wrapper with a never-matching selector, the call evaluates to the raw
instance list. -/
theorem claim_C1_not_returns_bare_array :
    ReactMountWrapper.not sampleRootWrapper (.pred (fun _ => false)) = [sampleRoot] :=
  rfl

/-- Claim C2 — code evaluation at the failing inputs.  `treeForEach` on
`null`, `false` and `undefined` performs no visit but throws a `TypeError`
instead of no-opping: the defensive guard protects only the `fn(tree)` call,
while `tree.children` is read unconditionally after it. -/
theorem claim_C2_treeForEach_throws_on_nullish :
    treeForEach .nullV = ([], some (childrenOfNullErr "null"))
    ∧ treeForEach .falseV = ([], some forEachOfUndefErr)
    ∧ treeForEach .undefV = ([], some (childrenOfNullErr "undefined")) :=
  ⟨rfl, rfl, rfl⟩

/-- Claim C3: `nodeEqual(a, a)` is true for every node; `nodeEqual` is
symmetric (on nodes whose props mappings have duplicate-free keys, as every
JavaScript object has); and `nodeMatches` under the loose `≤` length
comparator is not symmetric — an element with no props matches a `div`
carrying an extra prop, but not conversely. -/
theorem claim_C3_comparator_algebra (a b : NVal)
    (hWa : WFn a = true) (hWb : WFn b = true) :
    nodeEqual a a = true
    ∧ nodeEqual a b = nodeEqual b a
    ∧ (∃ x y : NVal, nodeMatches x y leComp = true ∧ nodeMatches y x leComp = false) := by
  refine ⟨nodeEqual_refl a, nodeEqual_symm a b hWa hWb,
    ⟨.elem (.host "div") [] .noneC, .elem (.host "div") [("title", .str "x")] .noneC,
      by decide, by decide⟩⟩

theorem claim_C3_witness :
    nodeEqual sampleNodeA sampleNodeA = true
    ∧ nodeEqual sampleNodeA sampleNodeB = nodeEqual sampleNodeB sampleNodeA
    ∧ (∃ x y : NVal, nodeMatches x y leComp = true ∧ nodeMatches y x leComp = false) :=
  claim_C3_comparator_algebra sampleNodeA sampleNodeB (by decide) (by decide)

/-- Claim C4: `childrenToSimplifiedArray` is idempotent — feeding its output
back in (as an array children value) returns the same sequence, because the
output never contains two adjacent textual entries nor any nullish entry. -/
theorem claim_C4_simplify_idempotent (c : COpt) :
    childrenToSimplifiedArray
        (.someC (.many (NList.ofList (childrenToSimplifiedArray c))))
      = childrenToSimplifiedArray c :=
  childrenToSimplifiedArray_idem c

/-- Claim C5: for a textual leaf `a` (string or number), both `nodeEqual(a, b)`
and `nodeMatches(a, b)` (under any length comparator) are true exactly when
`a` and `b` are identical — decided only at the identity step; a
non-identical textual `a` that survives the structural checks hits the
comparator's final step, which returns not-equal. -/
theorem claim_C5_textual_identity (a b : NVal) (lenComp : Nat → Nat → Bool)
    (h : isTextualNode a = true) :
    nodeEqual a b = decide (a = b) ∧ nodeMatches a b lenComp = decide (a = b) := by
  obtain ⟨f, hf⟩ : ∃ f, sizeN a + sizeN b = f + 1 := by
    have h1 := sizeN_pos a
    have h2 := sizeN_pos b
    exact ⟨sizeN a + sizeN b - 1, by omega⟩
  constructor
  · rw [nodeEqual, hf, incF]
    exact incBody_textual _ _ _ b h
  · rw [nodeMatches, hf, incF]
    exact incBody_textual _ _ _ b h

theorem claim_C5_witness :
    nodeEqual (.text "5") (.num 5) = decide ((NVal.text "5") = .num 5)
    ∧ nodeMatches (.text "5") (.num 5) leComp = decide ((NVal.text "5") = .num 5) :=
  claim_C5_textual_identity (.text "5") (.num 5) leComp (by decide)

/-- Claim C6: for every selector and wrapper, each node of `filter`'s result
satisfies the predicate `buildPredicate` compiles from the selector, and the
result's instance sequence is an order-preserving subsequence of the
wrapper's (`filter` keeps the predicate-satisfying nodes and `compact` only
ever removes entries). -/
theorem claim_C6_filter_sound (s : Selector) (w : Wrapper) :
    (∀ i ∈ (ReactMountWrapper.filter w s).instances,
      buildPredicate s (.inst i) = true)
    ∧ List.Sublist (ReactMountWrapper.filter w s).instances w.instances := by
  have hinst : (ReactMountWrapper.filter w s).instances
      = ((w.instances.filter (fun i => buildPredicate s (.inst i))).filter
          (fun _ => true)) := rfl
  constructor
  · intro i hi
    rw [hinst] at hi
    exact (List.mem_filter.mp (List.mem_filter.mp hi).1).2
  · rw [hinst]
    exact (List.filter_sublist _).trans (List.filter_sublist _)

theorem claim_C6_witness :
    buildPredicate (.pred (fun _ => true)) (.inst sampleRoot) = true
    ∧ List.Sublist
        (ReactMountWrapper.filter sampleRootWrapper (.pred (fun _ => true))).instances
        sampleRootWrapper.instances := by
  have h := claim_C6_filter_sound (.pred (fun _ => true)) sampleRootWrapper
  exact ⟨h.1 sampleRoot (by decide), h.2⟩

/-- Claim C7 — counterexample.  On the empty wrapper (length 0), `state()`
throws `RootRequiredError`, not `SingleNodeRequiredError`: the source checks
root-ness before cardinality, and a length-0 wrapper is never root. -/
theorem claim_C7_counterexample :
    ReactMountWrapper.state sampleEnv sampleEmptyWrapper none
      = .error (rootRequiredErr "state")
    ∧ (rootRequiredErr "state").kind ≠ ErrKind.singleNodeRequired :=
  ⟨rfl, by decide⟩

/-- Claim C7 as amended: the accessors `props`, `prop`, `instance`, `type`,
`key`, `name` throw `SingleNodeRequiredError` for wrapper lengths 0 and ≥ 2,
the error message naming the executed operation and the observed cardinality
(`prop` delegates to `props`, so its failure names `props`); `state` and
`context` check root-ness first, throwing `RootRequiredError` on every
non-root wrapper (in particular on every length-0 wrapper) and
`SingleNodeRequiredError` only on a root wrapper of length ≥ 2; and for
length exactly 1 no accessor ever throws `SingleNodeRequiredError`. -/
theorem claim_C7_accessor_gating (w : Wrapper)
    (env : Nat → ReactMountWrapper.CompRec) (pn : String) (nm : Option String) :
    (ReactMountWrapper.length w ≠ 1 →
      ReactMountWrapper.props w
        = .error (singleNodeErr "props" (ReactMountWrapper.length w))
      ∧ ReactMountWrapper.prop w pn
        = .error (singleNodeErr "props" (ReactMountWrapper.length w))
      ∧ ReactMountWrapper.instanceM w
        = .error (singleNodeErr "instance" (ReactMountWrapper.length w))
      ∧ ReactMountWrapper.typeM w
        = .error (singleNodeErr "type" (ReactMountWrapper.length w))
      ∧ ReactMountWrapper.key w
        = .error (singleNodeErr "key" (ReactMountWrapper.length w))
      ∧ ReactMountWrapper.name w
        = .error (singleNodeErr "name" (ReactMountWrapper.length w)))
    ∧ (ReactMountWrapper.isRoot w = false →
      ReactMountWrapper.state env w nm = .error (rootRequiredErr "state")
      ∧ ReactMountWrapper.context env w nm = .error (rootRequiredErr "context"))
    ∧ (ReactMountWrapper.isRoot w = true → ReactMountWrapper.length w ≠ 1 →
      ReactMountWrapper.state env w nm
        = .error (singleNodeErr "state" (ReactMountWrapper.length w))
      ∧ ReactMountWrapper.context env w nm
        = .error (singleNodeErr "context" (ReactMountWrapper.length w)))
    ∧ (ReactMountWrapper.length w = 1 →
      isSingleNodeErr (ReactMountWrapper.props w) = false
      ∧ isSingleNodeErr (ReactMountWrapper.prop w pn) = false
      ∧ isSingleNodeErr (ReactMountWrapper.instanceM w) = false
      ∧ isSingleNodeErr (ReactMountWrapper.typeM w) = false
      ∧ isSingleNodeErr (ReactMountWrapper.key w) = false
      ∧ isSingleNodeErr (ReactMountWrapper.name w) = false
      ∧ isSingleNodeErr (ReactMountWrapper.state env w nm) = false
      ∧ isSingleNodeErr (ReactMountWrapper.context env w nm) = false) := by
  have hsingle : ∀ (op : String) (α : Type) (fn : Inst → Except JsError α),
      ReactMountWrapper.length w ≠ 1 →
      ReactMountWrapper.single w op fn
        = .error (singleNodeErr op (ReactMountWrapper.length w)) := by
    intro op α fn hlen
    rcases hw : w.instances with _ | ⟨i, _ | ⟨j, t⟩⟩
    · rw [ReactMountWrapper.single, hw, ReactMountWrapper.length, hw]
    · exact absurd (by rw [ReactMountWrapper.length, hw]; rfl) hlen
    · rw [ReactMountWrapper.single, hw, ReactMountWrapper.length, hw]
  refine ⟨?_, ?_, ?_, ?_⟩
  · intro hlen
    refine ⟨hsingle "props" _ _ hlen, ?_, hsingle "instance" _ _ hlen,
      hsingle "type" _ _ hlen, hsingle "key" _ _ hlen, hsingle "name" _ _ hlen⟩
    rw [ReactMountWrapper.prop, ReactMountWrapper.props, hsingle "props" _ _ hlen]
    rfl
  · intro hroot
    constructor
    · rw [ReactMountWrapper.state, if_pos hroot]
    · rw [ReactMountWrapper.context, if_pos hroot]
  · intro hroot hlen
    constructor
    · rw [ReactMountWrapper.state, if_neg (by rw [hroot]; simp),
        hsingle "state" _ _ hlen]
      rfl
    · rw [ReactMountWrapper.context, if_neg (by rw [hroot]; simp),
        hsingle "context" _ _ hlen]
      rfl
  · intro hlen
    obtain ⟨i, hw⟩ : ∃ i, w.instances = [i] := by
      rcases hw : w.instances with _ | ⟨i, _ | ⟨j, t⟩⟩
      · rw [ReactMountWrapper.length, hw] at hlen
        simp at hlen
      · exact ⟨i, rfl⟩
      · rw [ReactMountWrapper.length, hw] at hlen
        simp at hlen
    have hone : ∀ (α : Type) (op : String) (fn : Inst → Except JsError α),
        ReactMountWrapper.single w op fn = fn i := by
      intro α op fn
      rw [ReactMountWrapper.single, hw]
    refine ⟨?_, ?_, ?_, ?_, ?_, ?_, ?_, ?_⟩
    · rw [ReactMountWrapper.props, hone]; rfl
    · rw [ReactMountWrapper.prop, ReactMountWrapper.props, hone]; rfl
    · rw [ReactMountWrapper.instanceM, hone]; rfl
    · rw [ReactMountWrapper.typeM, hone]; rfl
    · rw [ReactMountWrapper.key, hone]; rfl
    · rw [ReactMountWrapper.name, hone]; rfl
    · rw [ReactMountWrapper.state]
      by_cases hroot : ReactMountWrapper.isRoot w = false
      · rw [if_pos hroot]; rfl
      · rw [if_neg hroot, hone]
        cases hr : i.instRef
        · rfl
        · rfl
    · rw [ReactMountWrapper.context]
      by_cases hroot : ReactMountWrapper.isRoot w = false
      · rw [if_pos hroot]; rfl
      · rw [if_neg hroot, hone]
        cases hr : i.instRef
        · rfl
        · rfl

theorem claim_C7_witness :
    ReactMountWrapper.props sampleEmptyWrapper = .error (singleNodeErr "props" 0)
    ∧ ReactMountWrapper.state sampleEnv sampleEmptyWrapper none
        = .error (rootRequiredErr "state")
    ∧ ReactMountWrapper.state sampleEnv samplePairWrapper none
        = .error (singleNodeErr "state" 2)
    ∧ isSingleNodeErr (ReactMountWrapper.props sampleRootWrapper) = false := by
  have h0 := claim_C7_accessor_gating sampleEmptyWrapper sampleEnv "x" none
  have h2 := claim_C7_accessor_gating samplePairWrapper sampleEnv "x" none
  have h1 := claim_C7_accessor_gating sampleRootWrapper sampleEnv "x" none
  exact ⟨(h0.1 (by decide)).1, (h0.2.1 (by decide)).1,
    (h2.2.2.1 (by decide) (by decide)).1, (h1.2.2.2 (by decide)).1⟩

/-- Claim C8: on any non-root wrapper (derived root-ness check false) the
three mutators throw `RootRequiredError` before looking at any of their
arguments — props/state/context content and callback are irrelevant. -/
theorem claim_C8_mutators_root_required (w : Wrapper)
    (p q r : List (String × PVal)) (c d : ReactMountWrapper.JsCallback)
    (h : ReactMountWrapper.isRoot w = false) :
    ReactMountWrapper.setProps w p c = .error (rootRequiredErr "setProps")
    ∧ ReactMountWrapper.setState w q d = .error (rootRequiredErr "setState")
    ∧ ReactMountWrapper.setContext w r = .error (rootRequiredErr "setContext") := by
  refine ⟨?_, ?_, ?_⟩ <;>
    simp [ReactMountWrapper.setProps, ReactMountWrapper.setState,
      ReactMountWrapper.setContext, h]

theorem claim_C8_witness :
    ReactMountWrapper.setProps sampleNonRootWrapper [("x", .int 1)] (.notFn .nullP)
      = .error (rootRequiredErr "setProps")
    ∧ ReactMountWrapper.setState sampleNonRootWrapper [("s", .bool true)] (.fn 0)
      = .error (rootRequiredErr "setState")
    ∧ ReactMountWrapper.setContext sampleNonRootWrapper []
      = .error (rootRequiredErr "setContext") :=
  claim_C8_mutators_root_required sampleNonRootWrapper
    [("x", .int 1)] [("s", .bool true)] [] (.notFn .nullP) (.fn 0) (by decide)

/-- Claim C9 — counterexample.  The claim says a non-array argument makes
*both* checks fail with `InvalidArgumentError` rather than return a boolean;
but `containsAnyMatchingElements` is `Array.isArray(nodes) && nodes.some(...)`,
which on a non-array argument short-circuits and returns the boolean `false`
without throwing. -/
theorem claim_C9_counterexample :
    ReactMountWrapper.containsAnyMatchingElements sampleRenderEl sampleRootWrapper
      (.otherArg sampleNodeA) = .ok false :=
  rfl

/-- Claim C9 as amended: for every non-array argument,
`containsAllMatchingElements` fails with `InvalidArgumentError` (the thrown
`TypeError('nodes should be an Array')`), while `containsAnyMatchingElements`
instead returns `false` without failing. -/
theorem claim_C9_nonarray_behavior (r : NVal → Inst) (w : Wrapper) (v : NVal) :
    ReactMountWrapper.containsAllMatchingElements r w (.otherArg v)
      = .error ⟨.invalidArgument, "nodes should be an Array"⟩
    ∧ ReactMountWrapper.containsAnyMatchingElements r w (.otherArg v) = .ok false :=
  ⟨rfl, rfl⟩

/-- Claim C10: every wrapper derived through `wrap` keeps `rootRef` and the
renderer and holds exactly the given instances, but its `rootElement` is
`undefined` — `wrap` passes the never-assigned `this.rootNode` instead of
`this.rootElement` — so the original root element description is lost on
every derivation, and `mount()` on a derived root-equivalent wrapper
re-renders with an undefined element. -/
theorem claim_C10_wrap_drops_root_element (w : Wrapper) (l : List Inst) :
    (ReactMountWrapper.wrap w l).rootRef = w.rootRef
    ∧ (ReactMountWrapper.wrap w l).renderer = w.renderer
    ∧ (ReactMountWrapper.wrap w l).instances = l
    ∧ (ReactMountWrapper.wrap w l).rootElement = none
    ∧ (ReactMountWrapper.isRoot (ReactMountWrapper.wrap w l) = true →
        ReactMountWrapper.mount (ReactMountWrapper.wrap w l)
          = .ok (.render none [], ReactMountWrapper.wrap w l)) := by
  refine ⟨rfl, rfl, rfl, rfl, ?_⟩
  intro h
  rw [ReactMountWrapper.mount, h]
  rfl

theorem claim_C10_witness :
    (ReactMountWrapper.wrap sampleRootWrapper [sampleRoot]).rootElement = none
    ∧ ReactMountWrapper.mount (ReactMountWrapper.wrap sampleRootWrapper [sampleRoot])
        = .ok (.render none [], ReactMountWrapper.wrap sampleRootWrapper [sampleRoot]) := by
  have h := claim_C10_wrap_drops_root_element sampleRootWrapper [sampleRoot]
  exact ⟨h.2.2.2.1, h.2.2.2.2 (by decide)⟩

end Enzyme
